import Mathlib

/-!
# Verification of the arti `tor-persist` state directory subsystem

A shallow embedding of `crates/tor-persist/src/state_dir.rs`, together with
models of its collaborators (`crate::slug`, `crate::load_store`, the
`fslock-guard` lock file, and `fs_mistrust` directory creation) whose sources
are not part of the extract; those are modelled from the specification, as
marked on each definition.

File names and paths are represented as lists of characters / components,
the filesystem as an explicit state record, and each operation as a function
from state to (result, new state, trace of filesystem operations).
-/

deriving instance DecidableEq for Except

namespace StateDir

/-- A file or directory name: one path component, as a list of characters. -/
abbrev Name := List Char

/-- A path, relative to the state directory root, as a list of components. -/
abbrev Path := List Name

/-- Convert a string literal to a `Name`. -/
def nm (s : String) : Name := s.data

/-! ## Slug validation

Modelled from the spec: the `crate::slug` module is not part of the extract.
The spec describes a Slug as a string restricted to a small safe character
set (lowercase letters, digits, and a few punctuation marks), non-empty,
starting with an alphanumeric character; invalid input is rejected with a
classified BadSlug error, never silently sanitized.
-/

/-- Modelled from the spec: a character allowed anywhere in a slug
(lowercase letters, digits, and a few punctuation marks; notably `.` and the
path separator are excluded). -/
def isSlugChar (c : Char) : Bool :=
  c.isLower || c.isDigit || c = '_' || c = '-' || c = '+'

/-- Modelled from the spec: the first character of a slug must be
alphanumeric. -/
def isSlugFirstChar (c : Char) : Bool :=
  c.isLower || c.isDigit

/-- Modelled from the spec: the classified reasons a string can fail slug
validation (`BadSlug` in `crate::slug`): empty, bad leading character, or a
character outside the permitted set.  `state_dir.rs` itself names the
variant `BadSlug::EmptySlugNotAllowed`. -/
inductive BadSlug where
  /-- The empty string is not a slug. -/
  | emptySlugNotAllowed : BadSlug
  /-- The leading character is not alphanumeric. -/
  | badFirstCharacter (c : Char) : BadSlug
  /-- A character outside the permitted set occurs. -/
  | badCharacter (c : Char) : BadSlug
deriving DecidableEq, Repr

/-- Modelled from the spec: `SlugRef::new` / `TryIntoSlug`: validate a
string as a slug, returning the classified error for invalid input;
the input is never truncated, escaped or otherwise sanitized. -/
def checkSlug : Name → Except BadSlug Unit
  | [] => .error .emptySlugNotAllowed
  | c :: rest =>
    if isSlugFirstChar c then
      match rest.find? (fun d => !(isSlugChar d)) with
      | some d => .error (.badCharacter d)
      | none => .ok ()
    else .error (.badFirstCharacter c)

/-- A string is a valid slug iff `checkSlug` accepts it. -/
def isSlug (s : Name) : Bool :=
  match checkSlug s with
  | .ok () => true
  | .error _ => false

/-! ## Rust `Path::with_extension`

`InstanceStateHandle::purge` computes the lock file path as
`dir.with_extension("lock")`.  We model the `std::path` semantics: the
extension of a file name is the part after the last `.`, unless the only
`.` is the leading character; `with_extension` replaces it (or appends when
there is none). -/

/-- Does a character occur in a name? -/
def containsChar (c : Char) : Name → Bool
  | [] => false
  | d :: rest => if d = c then true else containsChar c rest

/-- The part of a file name before its last `.` (helper; callers establish
that a `.` occurs). -/
def stripAfterLastDot (xs : Name) : Name :=
  ((xs.reverse.dropWhile (fun c => !(c = '.'))).drop 1).reverse

/-- Rust `Path::file_stem` on one component: strip the extension, where an
extension only exists when some `.` occurs after the first character. -/
def rustFileStem : Name → Name
  | [] => []
  | c :: rest =>
    if containsChar '.' rest then c :: stripAfterLastDot rest
    else c :: rest

/-- Rust `Path::with_extension` on one component: the file stem followed by
`.` and the new extension. -/
def rustWithExtension (name ext : Name) : Name :=
  rustFileStem name ++ '.' :: ext

/-- Rust `Path::with_extension` on a whole path: replace the extension of
the last component. -/
def pathWithExtension : Path → Name → Path
  | [], _ => []
  | [last], ext => [rustWithExtension last ext]
  | c :: rest, ext => c :: pathWithExtension rest ext

/-- Predicate `pathIsUnder dir p`: `p` is `dir` itself or lies below it
(component-wise prefix).  Used to model `fs::remove_dir_all`. -/
def pathIsUnder : Path → Path → Bool
  | [], _ => true
  | _, [] => false
  | d :: ds, q :: qs => if d = q then pathIsUnder ds qs else false

/-! ## Errors

From `crates/tor-persist/src/err.rs` as used by `state_dir.rs`: an error
carries a source and the action being performed (we omit the `Resource`
diagnostic payload, which no claim depends on). -/

/-- The action being performed when an error occurred
(`crate::err::Action`, as used in `state_dir.rs`). -/
inductive Action where
  | initializing : Action
  | locking : Action
  | loading : Action
  | storing : Action
  | deleting : Action
deriving DecidableEq, Repr

/-- The underlying cause of an error (`crate::err::ErrorSource`, restricted
to the variants `state_dir.rs` produces): lock contention, slug validation,
API misuse, and other I/O failure. -/
inductive ErrorSource where
  /-- The instance lock is already held elsewhere (expected contention). -/
  | alreadyLocked : ErrorSource
  /-- Slug validation failed, with the classified reason. -/
  | badSlug (b : BadSlug) : ErrorSource
  /-- Caller misuse, e.g. purge while other handle clones survive. -/
  | badApiUsage : ErrorSource
  /-- Some other I/O failure. -/
  | io : ErrorSource
deriving DecidableEq, Repr

/-- An error as reported by the state directory: source plus action. -/
structure Error where
  source : ErrorSource
  action : Action
deriving DecidableEq, Repr

/-! ## The filesystem and lock state

The persistent world the subsystem manipulates, relative to the state
directory root: existing directories, record files (holding the stored
value directly — the spec's assumed (de)serialization codec is required to
be round-trip faithful, so a record file is modelled by the value it
encodes), lock files on disk, and the set of currently held locks.

A held lock carries the clone count of the `Arc<LockFileGuard>` shared by
all clones of the owning `InstanceStateHandle`; the count models
`Arc::strong_count`, and the lock is released (entry removed) when the last
clone is dropped — also on process exit, which the model treats the same
way. -/

/-- A filesystem operation, recorded in the trace of each state-changing
call so ordering claims can be stated. -/
inductive FsOp where
  /-- Model of `make_secure_directory`: create a directory (only traced when it did
  not already exist). -/
  | mkDir (p : Path) : FsOp
  /-- Model of `LockFileGuard::try_lock` succeeding: create (if needed) and lock the
  lock file. -/
  | lockFile (p : Path) : FsOp
  /-- Model of `fs::remove_dir_all`. -/
  | removeDirAll (p : Path) : FsOp
  /-- Remove a single file (`delete_lock_file`, or a record delete). -/
  | removeFile (p : Path) : FsOp
  /-- Write a (temporary) file. -/
  | writeFile (p : Path) : FsOp
  /-- Atomically rename `src` over `dst`. -/
  | rename (src dst : Path) : FsOp
deriving DecidableEq, Repr

/-- The world state: directories, record files, lock files, held locks. -/
structure FsState (V : Type) where
  /-- Directories that exist, as paths relative to the root. -/
  dirs : List Path
  /-- Record files that exist, with the value each one encodes. -/
  files : List (Path × V)
  /-- Lock files that exist on disk (a lock file persists after release). -/
  lockFiles : List Path
  /-- Currently held locks, with the clone count of the owning guard. -/
  held : List (Path × Nat)
deriving DecidableEq, Repr

/-- The empty world: a fresh state directory. -/
def FsState.empty (V : Type) : FsState V := ⟨[], [], [], []⟩

/-! ### Association-list helpers -/

/-- Look up a file's value by path. -/
def lookupFile {V : Type} : List (Path × V) → Path → Option V
  | [], _ => none
  | (q, w) :: rest, p => if q = p then some w else lookupFile rest p

/-- Write a file: replace the entry at `p`, or add one. -/
def setFile {V : Type} : List (Path × V) → Path → V → List (Path × V)
  | [], p, v => [(p, v)]
  | (q, w) :: rest, p, v =>
    if q = p then (p, v) :: rest else (q, w) :: setFile rest p v

/-- Remove the entry (if any) at path `p` (a filesystem path denotes at
most one file, so this clears the key). -/
def removeEntry {V : Type} : List (Path × V) → Path → List (Path × V)
  | [], _ => []
  | (q, w) :: rest, p =>
    if q = p then removeEntry rest p else (q, w) :: removeEntry rest p

/-- Clone the guard: increment the count at `p` (adding a fresh entry when
absent, which does not arise for a live handle). -/
def bumpCount : List (Path × Nat) → Path → List (Path × Nat)
  | [], p => [(p, 1)]
  | (q, n) :: rest, p =>
    if q = p then (q, n + 1) :: rest else (q, n) :: bumpCount rest p

/-- Drop one clone of the guard: decrement the count at `p`, releasing the
lock (removing the entry) when the last clone goes. -/
def decCount : List (Path × Nat) → Path → List (Path × Nat)
  | [], _ => []
  | (q, n) :: rest, p =>
    if q = p then (if n ≤ 1 then rest else (q, n - 1) :: rest)
    else (q, n) :: decCount rest p

/-- Ensure a directory exists (`CheckedDir::make_secure_directory`,
modelled from the spec: permission-checked creation, idempotent; the
mistrust policy itself is external and modelled as accepting). -/
def ensureDir {V : Type} (s : FsState V) (p : Path) : FsState V × List FsOp :=
  if p ∈ s.dirs then (s, [])
  else ({ s with dirs := p :: s.dirs }, [.mkDir p])

/-- Remove every occurrence of a path from a list of paths. -/
def removePath : List Path → Path → List Path
  | [], _ => []
  | q :: rest, p =>
    if q = p then removePath rest p else q :: removePath rest p

/-! ## Instance acquisition (`StateDirectory::acquire_instance`) -/

/-- The `lock` file extension. -/
def extLock : Name := nm "lock"

/-- The `json` record extension. -/
def extJson : Name := nm "json"

/-- The `new` temporary-file extension (implied filesystem structure:
`STATE_DIR/KIND/INSTANCE/SLUG.new`). -/
def extNew : Name := nm "new"

/-- Model of `InstanceStateHandle`: the instance directory plus the path of the lock
file guarding it (the `Arc<LockFileGuard>`; its clone count lives in
`FsState.held` at `lockPath`). -/
structure InstanceStateHandle where
  /-- The instance directory `KIND/IDENTITY`. -/
  dir : Path
  /-- The lock file path `KIND/IDENTITY.lock` the guard was taken on. -/
  lockPath : Path
deriving DecidableEq, Repr

/-- Model of `StateDirectory::with_instance_path_pieces`: validate `kind` and the
identity string as slugs before any filesystem work, classifying failures
as BadSlug errors (an explicit empty check on `kind` first, then
`SlugRef::new` on each). -/
def withInstancePathPieces (kindStr idString : Name) : Except Error Unit :=
  if kindStr = [] then .error ⟨.badSlug .emptySlugNotAllowed, .initializing⟩
  else
    match checkSlug kindStr with
    | .error b => .error ⟨.badSlug b, .initializing⟩
    | .ok () =>
      match checkSlug idString with
      | .error b => .error ⟨.badSlug b, .initializing⟩
      | .ok () => .ok ()

/-- The lock file path for an instance: `KIND/IDENTITY.lock`, next to (not
inside) the instance directory. -/
def instanceLockPath (kind id : Name) : Path :=
  [kind, id ++ '.' :: extLock]

/-- Model of `StateDirectory::acquire_instance`: validate the slugs, ensure the
`kind` directory, try the non-blocking lock on `KIND/IDENTITY.lock`
(`LockFileGuard::try_lock`, modelled from the spec: create the lock file if
needed and take it, or fail with AlreadyLocked when it is held by anyone),
then ensure the instance directory and return the handle. -/
def acquireInstance {V : Type} (s : FsState V) (kind id : Name) :
    Except Error InstanceStateHandle × FsState V × List FsOp :=
  match withInstancePathPieces kind id with
  | .error e => (.error e, s, [])
  | .ok () =>
    let st1 := ensureDir s [kind]
    let lockPath := instanceLockPath kind id
    match lookupFile st1.1.held lockPath with
    | some _ => (.error ⟨.alreadyLocked, .locking⟩, st1.1, st1.2)
    | none =>
      let s2 : FsState V :=
        { st1.1 with
          held := (lockPath, 1) :: st1.1.held,
          lockFiles :=
            if lockPath ∈ st1.1.lockFiles then st1.1.lockFiles
            else lockPath :: st1.1.lockFiles }
      let st3 := ensureDir s2 [kind, id]
      (.ok ⟨[kind, id], lockPath⟩, st3.1, st1.2 ++ .lockFile lockPath :: st3.2)

/-- Model of `Clone` for `InstanceStateHandle`: all clones share the guard, so a
clone just increments the guard's count. -/
def cloneHandle {V : Type} (s : FsState V) (h : InstanceStateHandle) :
    FsState V :=
  { s with held := bumpCount s.held h.lockPath }

/-- Model of `Drop` for `InstanceStateHandle`: decrement the guard's count; when the
last clone goes the lock is released (the lock file stays on disk). -/
def dropHandle {V : Type} (s : FsState V) (h : InstanceStateHandle) :
    FsState V :=
  { s with held := decCount s.held h.lockPath }

/-- Model of `InstanceStateHandle::purge`: `Arc::into_inner` on the guard fails
(BadApiUsage, nothing touched) unless this is the sole clone; otherwise
recursively delete the instance directory, then delete the lock file at
`dir.with_extension("lock")`, releasing the lock. `fs::remove_dir_all`
fails when the directory is missing. -/
def purge {V : Type} (s : FsState V) (h : InstanceStateHandle) :
    Except Error Unit × FsState V × List FsOp :=
  match lookupFile s.held h.lockPath with
  | some 1 =>
    if h.dir ∈ s.dirs then
      let lockFilePath := pathWithExtension h.dir extLock
      let s1 : FsState V :=
        { s with
          dirs := s.dirs.filter (fun q => !(pathIsUnder h.dir q)),
          files := s.files.filter (fun f => !(pathIsUnder h.dir f.1)),
          lockFiles := removePath s.lockFiles lockFilePath,
          held := removeEntry s.held h.lockPath }
      (.ok (), s1, [.removeDirAll h.dir, .removeFile lockFilePath])
    else (.error ⟨.io, .deleting⟩, s, [])
  | _ => (.error ⟨.badApiUsage, .deleting⟩, s, [])

/-! ## Record stores (`StorageHandle`) -/

/-- Model of `StorageHandle`: an instance directory plus the leaf name `SLUG.json`
of the record it is bound to. -/
structure StorageHandle where
  /-- The instance directory. -/
  instanceDir : Path
  /-- The record's leaf name, `SLUG.json`. -/
  leafname : Name
deriving DecidableEq, Repr

/-- Model of `InstanceStateHandle::storage_handle`: validate the slug and bind the
record `SLUG.json` in the instance directory. -/
def storageHandle (h : InstanceStateHandle) (slug : Name) :
    Except Error StorageHandle :=
  match checkSlug slug with
  | .error b => .error ⟨.badSlug b, .initializing⟩
  | .ok () => .ok ⟨h.dir, slug ++ '.' :: extJson⟩

/-- Modelled from the spec: `load_store::Target::load` — read and decode
the record file, `none` when it does not exist; the codec is round-trip
faithful, so the decoded value is the one last encoded. -/
def lsLoad {V : Type} (s : FsState V) (dir : Path) (leaf : Name) :
    Option V :=
  lookupFile s.files (dir ++ [leaf])

/-- Modelled from the spec: `load_store::Target::store` — serialize to a
temporary file in the same directory and atomically rename it over the
record's path.  The temporary file's name follows the implied filesystem
structure documented in `state_dir.rs` (`SLUG.new`, the record name with
its extension replaced). -/
def lsStore {V : Type} (s : FsState V) (dir : Path) (leaf : Name) (v : V) :
    FsState V × List FsOp :=
  let tmpPath := dir ++ [rustWithExtension leaf extNew]
  let recPath := dir ++ [leaf]
  let files1 := setFile s.files tmpPath v
  ({ s with files := setFile (removeEntry files1 tmpPath) recPath v },
   [.writeFile tmpPath, .rename tmpPath recPath])

/-- Modelled from the spec: `load_store::Target::delete` — remove the
backing record; a second delete does not error. -/
def lsDelete {V : Type} (s : FsState V) (dir : Path) (leaf : Name) :
    FsState V × List FsOp :=
  ({ s with files := removeEntry s.files (dir ++ [leaf]) },
   [.removeFile (dir ++ [leaf])])

/-- Model of `StorageHandle::load`. -/
def StorageHandle.load {V : Type} (sh : StorageHandle) (s : FsState V) :
    Except Error (Option V) :=
  .ok (lsLoad s sh.instanceDir sh.leafname)

/-- Model of `StorageHandle::store` (requires `&mut self` in the source, which
serialises read-modify-write cycles within a process). -/
def StorageHandle.store {V : Type} (sh : StorageHandle) (s : FsState V)
    (v : V) : Except Error Unit × FsState V × List FsOp :=
  let st := lsStore s sh.instanceDir sh.leafname v
  (.ok (), st.1, st.2)

/-- Model of `StorageHandle::delete`. -/
def StorageHandle.delete {V : Type} (sh : StorageHandle) (s : FsState V) :
    Except Error Unit × FsState V × List FsOp :=
  let st := lsDelete s sh.instanceDir sh.leafname
  (.ok (), st.1, st.2)

/-- Model of `StateDirectory::instance_peek_storage`: validate kind, identity and
slug, then read `KIND/IDENTITY/SLUG.json` directly — read-only, and
without consulting or taking the instance lock. -/
def instancePeekStorage {V : Type} (s : FsState V) (kind id slug : Name) :
    Except Error (Option V) :=
  match withInstancePathPieces kind id with
  | .error e => .error e
  | .ok () =>
    match checkSlug slug with
    | .error b => .error ⟨.badSlug b, .loading⟩
    | .ok () => .ok (lookupFile s.files [kind, id, slug ++ '.' :: extJson])

/-! ## The purge scan (`StateDirectory::purge_instances`)

Modelled from the spec: the body of `purge_instances` is a placeholder
(`todo!()`) in the extracted module; the scan below follows the spec's
steps (a)–(e): name filter, non-blocking lease acquisition treating
contention as in-use-skip, retention window, then dispose. -/

/-- Model of `Liveness`: is an instance still wanted? -/
inductive Liveness where
  /-- Not known to be interesting; a candidate for expiry. -/
  | possiblyUnused : Liveness
  /-- Still wanted; must be retained. -/
  | live : Liveness
deriving DecidableEq, Repr

/-- Modelled from the spec: an `InstancePurgeHandler` (purge policy),
as pure decision functions: classify liveness by name, give the retention
window, and decide in `dispose` whether to purge or to drop the handle. -/
structure InstancePurgeHandler where
  /-- Model of `name_filter`: can we tell by its name that the instance is live? -/
  nameFilter : Name → Liveness
  /-- Model of `retain_unused_for`: how long to retain an unused instance. -/
  retainUnusedFor : Name → Nat
  /-- The choice `dispose` makes: `true` to call `purge`, `false` to drop
  the handle (retaining the data). -/
  disposeChoosesPurge : Name → Bool

/-- Modelled from the spec: one instance of the purge scan.  Returns the
new state and `some id` exactly when the instance was passed to `dispose`.
A `Live` instance is skipped; a lock held elsewhere means in-use, skip
without error; an instance modified within its retention window is skipped
after releasing the lease; otherwise `dispose` runs with the acquired
handle. -/
def purgeScanStep {V : Type} (h : InstancePurgeHandler) (now : Nat)
    (kind : Name) (s : FsState V) (inst : Name × Nat) :
    FsState V × Option Name :=
  match h.nameFilter inst.1 with
  | .live => (s, none)
  | .possiblyUnused =>
    let lockPath := instanceLockPath kind inst.1
    match lookupFile s.held lockPath with
    | some _ => (s, none)
    | none =>
      let sAcq : FsState V :=
        { s with
          held := (lockPath, 1) :: s.held,
          lockFiles :=
            if lockPath ∈ s.lockFiles then s.lockFiles
            else lockPath :: s.lockFiles }
      if now - inst.2 < h.retainUnusedFor inst.1 then
        ({ sAcq with held := removeEntry sAcq.held lockPath }, none)
      else
        if h.disposeChoosesPurge inst.1 then
          ((purge sAcq ⟨[kind, inst.1], lockPath⟩).2.1, some inst.1)
        else
          ({ sAcq with held := removeEntry sAcq.held lockPath }, some inst.1)

/-- Modelled from the spec: the purge scan over the listed instances (each
with its last-modified time), accumulating the identities passed to
`dispose`. -/
def purgeScan {V : Type} (h : InstancePurgeHandler) (now : Nat)
    (kind : Name) :
    FsState V → List (Name × Nat) → FsState V × List Name
  | s, [] => (s, [])
  | s, inst :: rest =>
    let st1 := purgeScanStep h now kind s inst
    let st2 := purgeScan h now kind st1.1 rest
    match st1.2 with
    | some id => (st2.1, id :: st2.2)
    | none => (st2.1, st2.2)

/-- Modelled from the spec: `StateDirectory::purge_instances` — scan the
listed instances; lock contention is treated as in-use and never reported
as an error, so the scan as a whole succeeds. -/
def purgeInstances {V : Type} (s : FsState V) (h : InstancePurgeHandler)
    (now : Nat) (kind : Name) (instances : List (Name × Nat)) :
    Except Error Unit × FsState V × List Name :=
  let st := purgeScan h now kind s instances
  (.ok (), st.1, st.2)

/-! ## Association-list and path lemmas -/

theorem lookupFile_setFile_self {V : Type} (l : List (Path × V)) (p : Path)
    (v : V) : lookupFile (setFile l p v) p = some v := by
  induction l with
  | nil => simp [setFile, lookupFile]
  | cons qw rest ih =>
    by_cases h : qw.1 = p <;> simp [setFile, lookupFile, h, ih]

theorem lookupFile_setFile_ne {V : Type} (l : List (Path × V)) {p q : Path}
    (v : V) (hne : p ≠ q) :
    lookupFile (setFile l q v) p = lookupFile l p := by
  induction l with
  | nil => simp [setFile, lookupFile, Ne.symm hne]
  | cons qw rest ih =>
    obtain ⟨q1, w1⟩ := qw
    by_cases h : q1 = q
    · subst h
      simp [setFile, lookupFile, Ne.symm hne]
    · by_cases h2 : q1 = p <;> simp [setFile, lookupFile, h, h2, ih, hne]

theorem lookupFile_removeEntry_self {V : Type} (l : List (Path × V))
    (p : Path) : lookupFile (removeEntry l p) p = none := by
  induction l with
  | nil => simp [removeEntry, lookupFile]
  | cons qw rest ih =>
    by_cases h : qw.1 = p <;> simp [removeEntry, lookupFile, h, ih]

theorem lookupFile_removeEntry_ne {V : Type} (l : List (Path × V))
    {p q : Path} (hne : p ≠ q) :
    lookupFile (removeEntry l q) p = lookupFile l p := by
  induction l with
  | nil => simp [removeEntry]
  | cons qw rest ih =>
    by_cases h : qw.1 = q
    · simp [removeEntry, h, ih, lookupFile, Ne.symm hne]
    · by_cases h2 : qw.1 = p <;> simp [removeEntry, lookupFile, h, h2, ih, hne]

theorem lookupFile_cons_ne {V : Type} (l : List (Path × V)) {p q : Path}
    (w : V) (hne : p ≠ q) :
    lookupFile ((q, w) :: l) p = lookupFile l p := by
  simp [lookupFile, Ne.symm hne]

theorem lookupFile_filter_key {V : Type} (l : List (Path × V)) (p : Path)
    (g : Path × V → Bool) (hp : ∀ w, g (p, w) = false) :
    lookupFile (l.filter g) p = none := by
  induction l with
  | nil => simp [lookupFile]
  | cons qw rest ih =>
    by_cases hg : g qw = true
    · rw [List.filter_cons_of_pos hg]
      by_cases h : qw.1 = p
      · exact absurd hg (by rw [show qw = (p, qw.2) from Prod.ext h rfl, hp]; simp)
      · simpa [lookupFile, h] using ih
    · rw [List.filter_cons_of_neg hg]
      exact ih

theorem decCount_cons_one (l : List (Path × Nat)) (p : Path) :
    decCount ((p, 1) :: l) p = l := by
  simp [decCount]

theorem decCount_bumpCount (l : List (Path × Nat)) (p : Path)
    (hpos : ∀ qn ∈ l, 0 < qn.2) : decCount (bumpCount l p) p = l := by
  induction l with
  | nil => simp [bumpCount, decCount]
  | cons qn rest ih =>
    obtain ⟨q1, n1⟩ := qn
    by_cases h : q1 = p
    · have h1 : 0 < n1 := hpos (q1, n1) (List.mem_cons_self _ rest)
      have hn : ¬ (n1 + 1 ≤ 1) := by omega
      simp [bumpCount, decCount, h, hn]
    · simp only [bumpCount, if_neg h, decCount]
      rw [ih (fun x hx => hpos x (List.mem_cons_of_mem _ hx))]

/-! ## Slug and extension lemmas -/

theorem containsChar_false_iff (c : Char) (l : Name) :
    containsChar c l = false ↔ ∀ d ∈ l, d ≠ c := by
  induction l with
  | nil => simp [containsChar]
  | cons d rest ih =>
    by_cases h : d = c <;> simp [containsChar, h, ih]

theorem checkSlug_ok_first {s : Name} (h : checkSlug s = .ok ()) :
    s ≠ [] ∧ ∀ d ∈ s, isSlugChar d = true ∨ isSlugFirstChar d = true := by
  cases s with
  | nil => exact absurd h (by simp [checkSlug])
  | cons c rest =>
    refine ⟨by simp, ?_⟩
    simp only [checkSlug] at h
    by_cases hf : isSlugFirstChar c = true
    · rw [if_pos hf] at h
      intro d hd
      rcases List.mem_cons.mp hd with heq | hmem
      · exact Or.inr (heq ▸ hf)
      · left
        rcases hfind : rest.find? (fun d => !(isSlugChar d)) with _ | found
        · have := List.find?_eq_none.mp hfind d hmem
          simpa using this
        · rw [hfind] at h; cases h
    · rw [if_neg hf] at h; cases h

theorem checkSlug_ok_no_dot {s : Name} (h : checkSlug s = .ok ()) :
    containsChar '.' s = false := by
  rw [containsChar_false_iff]
  intro d hd heq
  rcases (checkSlug_ok_first h).2 d hd with hc | hc <;> rw [heq] at hc <;>
    exact absurd hc (by decide)

theorem rustWithExtension_no_dot (name ext : Name)
    (h : containsChar '.' name = false) :
    rustWithExtension name ext = name ++ '.' :: ext := by
  cases name with
  | nil => rfl
  | cons c rest =>
    have hrest : containsChar '.' rest = false := by
      rw [containsChar_false_iff] at h ⊢
      exact fun d hd => h d (List.mem_cons_of_mem _ hd)
    simp [rustWithExtension, rustFileStem, hrest]

theorem pathWithExtension_pair (a b ext : Name) :
    pathWithExtension [a, b] ext = [a, rustWithExtension b ext] := rfl

theorem instanceLockPath_inj {kind a b : Name}
    (h : instanceLockPath kind a = instanceLockPath kind b) : a = b := by
  simp only [instanceLockPath, List.cons.injEq, and_true, true_and] at h
  exact List.append_cancel_right h

/-! ## Inversion lemmas for acquisition -/

theorem ensureDir_held {V : Type} (s : FsState V) (p : Path) :
    (ensureDir s p).1.held = s.held := by
  unfold ensureDir; split <;> rfl

theorem ensureDir_files {V : Type} (s : FsState V) (p : Path) :
    (ensureDir s p).1.files = s.files := by
  unfold ensureDir; split <;> rfl

theorem ensureDir_mem {V : Type} (s : FsState V) (p : Path) :
    p ∈ (ensureDir s p).1.dirs := by
  unfold ensureDir; split
  · assumption
  · exact List.mem_cons_self _ _

theorem withInstancePathPieces_ok_iff (kind id : Name) :
    withInstancePathPieces kind id = .ok () ↔
      (checkSlug kind = .ok () ∧ checkSlug id = .ok ()) := by
  unfold withInstancePathPieces
  by_cases hk : kind = []
  · subst hk
    simp [checkSlug]
  · rw [if_neg hk]
    cases h1 : checkSlug kind with
    | error b => simp [h1]
    | ok u =>
      cases u
      cases h2 : checkSlug id with
      | error b => simp [h2]
      | ok u => cases u; simp

theorem withInstancePathPieces_error {kind id : Name} {e : Error}
    (h : withInstancePathPieces kind id = .error e) :
    ∃ b, e = ⟨.badSlug b, .initializing⟩ := by
  unfold withInstancePathPieces at h
  split at h
  · injection h with h2
    exact ⟨_, h2.symm⟩
  · split at h
    · injection h with h2
      exact ⟨_, h2.symm⟩
    · split at h
      · injection h with h2
        exact ⟨_, h2.symm⟩
      · cases h

theorem acquireInstance_ok {V : Type} {s : FsState V} {kind id : Name}
    {h : InstanceStateHandle} {s' : FsState V} {tr : List FsOp}
    (hacq : acquireInstance s kind id = (.ok h, s', tr)) :
    checkSlug kind = .ok () ∧ checkSlug id = .ok () ∧
    h = ⟨[kind, id], instanceLockPath kind id⟩ ∧
    s'.held = (instanceLockPath kind id, 1) :: s.held ∧
    lookupFile s.held (instanceLockPath kind id) = none ∧
    [kind, id] ∈ s'.dirs ∧
    s'.files = s.files := by
  unfold acquireInstance at hacq
  cases hw : withInstancePathPieces kind id with
  | error e => rw [hw] at hacq; cases hacq
  | ok u =>
    cases u
    rw [hw] at hacq
    dsimp only at hacq
    cases hl : lookupFile (ensureDir s [kind]).1.held (instanceLockPath kind id) with
    | some n => rw [hl] at hacq; cases hacq
    | none =>
      rw [hl] at hacq
      simp only [Prod.mk.injEq, Except.ok.injEq] at hacq
      obtain ⟨hh, hs, ht⟩ := hacq
      rw [ensureDir_held] at hl
      obtain ⟨hk, hi⟩ := (withInstancePathPieces_ok_iff kind id).mp hw
      subst hs
      refine ⟨hk, hi, hh.symm, ?_, hl, ensureDir_mem _ _, ?_⟩
      · rw [ensureDir_held]
        simp only [ensureDir_held]
      · rw [ensureDir_files]
        simp only [ensureDir_files]

theorem acquire_ok_of_unlocked {V : Type} (s : FsState V) (kind id : Name)
    (hk : checkSlug kind = .ok ()) (hi : checkSlug id = .ok ())
    (hun : lookupFile s.held (instanceLockPath kind id) = none) :
    ∃ s' tr, acquireInstance s kind id =
      (.ok ⟨[kind, id], instanceLockPath kind id⟩, s', tr) := by
  have hw : withInstancePathPieces kind id = .ok () :=
    (withInstancePathPieces_ok_iff kind id).mpr ⟨hk, hi⟩
  unfold acquireInstance
  rw [hw]
  dsimp only
  rw [ensureDir_held, hun]
  exact ⟨_, _, rfl⟩

/-! ## The claims -/

/-- C1: after a successful `acquire_instance` for a (kind, identity) pair,
while any clone of the returned handle is alive a second
`acquire_instance` for the same pair fails with an AlreadyLocked error (a
dedicated error source, distinguishable from other I/O failures); cloning
then dropping a copy leaves the lease exactly as it was, dropping the sole
copy releases the lease, and from any state in which the lease is no
longer held a subsequent `acquire_instance` for the pair succeeds,
returning the same handle. -/
theorem acquire_exclusive_until_released {V : Type} {s s' : FsState V}
    {kind id : Name} {h : InstanceStateHandle} {tr : List FsOp}
    (hacq : acquireInstance s kind id = (.ok h, s', tr)) :
    (acquireInstance s' kind id).1 = .error ⟨.alreadyLocked, .locking⟩ ∧
    (∀ t : FsState V, (∀ qn ∈ t.held, 0 < qn.2) →
       dropHandle (cloneHandle t h) h = t) ∧
    lookupFile (dropHandle s' h).held h.lockPath = none ∧
    (∀ s₂ : FsState V, lookupFile s₂.held h.lockPath = none →
       ∃ s₃ t₃, acquireInstance s₂ kind id = (.ok h, s₃, t₃)) := by
  obtain ⟨hk, hi, hh, hheld, hun, hmem, hfiles⟩ := acquireInstance_ok hacq
  subst hh
  have hw : withInstancePathPieces kind id = .ok () :=
    (withInstancePathPieces_ok_iff kind id).mpr ⟨hk, hi⟩
  refine ⟨?_, ?_, ?_, ?_⟩
  · unfold acquireInstance
    rw [hw]
    dsimp only
    rw [ensureDir_held, hheld]
    simp [lookupFile]
  · intro t hpos
    have hd : decCount (bumpCount t.held (instanceLockPath kind id))
        (instanceLockPath kind id) = t.held := decCount_bumpCount _ _ hpos
    simp [dropHandle, cloneHandle, hd]
  · show lookupFile (decCount s'.held _) _ = none
    rw [hheld]
    rw [decCount_cons_one]
    exact hun
  · intro s₂ h2
    exact acquire_ok_of_unlocked s₂ kind id hk hi h2

/-- Witness for C1: a concrete acquisition in the empty state; the second
acquisition on the resulting state fails with AlreadyLocked. -/
theorem acquire_exclusive_until_released_witness :
    (acquireInstance
        (⟨[[nm "garlic", nm "wild"], [nm "garlic"]], [],
          [[nm "garlic", nm "wild.lock"]],
          [([nm "garlic", nm "wild.lock"], 1)]⟩ : FsState Nat)
        (nm "garlic") (nm "wild")).1 = .error ⟨.alreadyLocked, .locking⟩ :=
  (@acquire_exclusive_until_released Nat (FsState.empty Nat)
      ⟨[[nm "garlic", nm "wild"], [nm "garlic"]], [],
       [[nm "garlic", nm "wild.lock"]],
       [([nm "garlic", nm "wild.lock"], 1)]⟩
      (nm "garlic") (nm "wild")
      ⟨[nm "garlic", nm "wild"], [nm "garlic", nm "wild.lock"]⟩
      [.mkDir [nm "garlic"], .lockFile [nm "garlic", nm "wild.lock"],
       .mkDir [nm "garlic", nm "wild"]]
      rfl).1

/-- C2: for every value `v` and every `StorageHandle` obtained from an
`InstanceStateHandle`, a successful `store(v)` followed by `load()`
returns `Ok(Some(v))`, with `v` reproduced exactly. -/
theorem store_load_roundtrip {V : Type} {ih : InstanceStateHandle}
    {slug : Name} {sh : StorageHandle}
    (hsh : storageHandle ih slug = .ok sh) (s : FsState V) (v : V) :
    (sh.store s v).1 = .ok () ∧
    sh.load (sh.store s v).2.1 = .ok (some v) := by
  refine ⟨rfl, ?_⟩
  simp only [StorageHandle.store, StorageHandle.load, lsStore, lsLoad]
  rw [lookupFile_setFile_self]

/-- Witness for C2: storing `42` under `stored_data` in the `garlic/wild`
instance and loading it back yields exactly `some 42`. -/
theorem store_load_roundtrip_witness :
    ((⟨[nm "garlic", nm "wild"], nm "stored_data.json"⟩ : StorageHandle).load
      ((⟨[nm "garlic", nm "wild"], nm "stored_data.json"⟩ :
          StorageHandle).store (FsState.empty Nat) 42).2.1) =
      .ok (some 42) :=
  (@store_load_roundtrip Nat
      ⟨[nm "garlic", nm "wild"], [nm "garlic", nm "wild.lock"]⟩
      (nm "stored_data")
      ⟨[nm "garlic", nm "wild"], nm "stored_data.json"⟩
      rfl (FsState.empty Nat) 42).2

/-- C3: `purge()` called while another clone of the handle is alive (guard
clone count at least 2) fails with a BadApiUsage error and leaves the
whole filesystem state unchanged, performing no filesystem operations. -/
theorem purge_other_clones_bad_api {V : Type} (s : FsState V)
    (h : InstanceStateHandle) (n : Nat)
    (hheld : lookupFile s.held h.lockPath = some n) (h2 : 2 ≤ n) :
    purge s h = (.error ⟨.badApiUsage, .deleting⟩, s, []) := by
  obtain ⟨m, rfl⟩ : ∃ m, n = m + 2 := ⟨n - 2, by omega⟩
  unfold purge
  rw [hheld]
  rfl

/-- Witness for C3: purging `garlic/wild` while its guard has two live
clones fails with BadApiUsage and returns the state untouched. -/
theorem purge_other_clones_bad_api_witness :
    purge (⟨[[nm "garlic", nm "wild"], [nm "garlic"]], [],
            [[nm "garlic", nm "wild.lock"]],
            [([nm "garlic", nm "wild.lock"], 2)]⟩ : FsState Nat)
      ⟨[nm "garlic", nm "wild"], [nm "garlic", nm "wild.lock"]⟩ =
    (.error ⟨.badApiUsage, .deleting⟩,
     ⟨[[nm "garlic", nm "wild"], [nm "garlic"]], [],
      [[nm "garlic", nm "wild.lock"]],
      [([nm "garlic", nm "wild.lock"], 2)]⟩, []) :=
  purge_other_clones_bad_api _ _ 2 rfl (by decide)

/-- C7: `delete()` succeeds, `load()` immediately after returns `Ok(None)`,
and a second `delete()` immediately following also returns `Ok`. -/
theorem delete_idempotent {V : Type} (sh : StorageHandle) (s : FsState V) :
    (sh.delete s).1 = .ok () ∧
    sh.load (sh.delete s).2.1 = .ok none ∧
    (sh.delete (sh.delete s).2.1).1 = .ok () := by
  refine ⟨rfl, ?_, rfl⟩
  simp only [StorageHandle.delete, StorageHandle.load, lsDelete, lsLoad]
  rw [lookupFile_removeEntry_self]

theorem pathWithExtension_instance_dir {kind id : Name}
    (hi : checkSlug id = .ok ()) :
    pathWithExtension [kind, id] extLock = instanceLockPath kind id := by
  rw [pathWithExtension_pair,
    rustWithExtension_no_dot _ _ (checkSlug_ok_no_dot hi)]
  rfl

/-- C4: purging the sole surviving handle of an instance succeeds and
performs exactly a recursive deletion of the instance directory followed
by deletion of the lock file `KIND/IDENTITY.lock`, in that order;
afterwards a fresh `acquire_instance` for the same identity succeeds, and
`instance_peek_storage` returns `None` for every slug. -/
theorem purge_sole_handle {V : Type} {s : FsState V} {kind id : Name}
    (h : InstanceStateHandle)
    (hh : h = ⟨[kind, id], instanceLockPath kind id⟩)
    (hk : checkSlug kind = .ok ()) (hi : checkSlug id = .ok ())
    (hheld : lookupFile s.held (instanceLockPath kind id) = some 1)
    (hmem : [kind, id] ∈ s.dirs) :
    (purge s h).1 = .ok () ∧
    (purge s h).2.2 =
      [.removeDirAll [kind, id], .removeFile (instanceLockPath kind id)] ∧
    (∃ s₃ t₃, acquireInstance (purge s h).2.1 kind id = (.ok h, s₃, t₃)) ∧
    (∀ slug : Name, checkSlug slug = .ok () →
       instancePeekStorage (purge s h).2.1 kind id slug = .ok none) := by
  subst hh
  have hp : purge s (⟨[kind, id], instanceLockPath kind id⟩ :
      InstanceStateHandle) =
      (.ok (),
       { s with
         dirs := s.dirs.filter (fun q => !(pathIsUnder [kind, id] q)),
         files := s.files.filter (fun f => !(pathIsUnder [kind, id] f.1)),
         lockFiles := removePath s.lockFiles (instanceLockPath kind id),
         held := removeEntry s.held (instanceLockPath kind id) },
       [.removeDirAll [kind, id],
        .removeFile (instanceLockPath kind id)]) := by
    unfold purge
    dsimp only
    rw [hheld, if_pos hmem, pathWithExtension_instance_dir hi]
  rw [hp]
  refine ⟨rfl, rfl, ?_, ?_⟩
  · exact acquire_ok_of_unlocked _ kind id hk hi
      (lookupFile_removeEntry_self _ _)
  · intro slug hslug
    unfold instancePeekStorage
    rw [(withInstancePathPieces_ok_iff kind id).mpr ⟨hk, hi⟩, hslug]
    dsimp only
    rw [lookupFile_filter_key]
    intro w
    simp [pathIsUnder]

/-- Witness for C4: purging the sole handle of `garlic/wild` deletes the
instance directory first and the lock file second. -/
theorem purge_sole_handle_witness :
    (purge (⟨[[nm "garlic", nm "wild"], [nm "garlic"]], [],
             [[nm "garlic", nm "wild.lock"]],
             [([nm "garlic", nm "wild.lock"], 1)]⟩ : FsState Nat)
       ⟨[nm "garlic", nm "wild"], [nm "garlic", nm "wild.lock"]⟩).2.2 =
      [.removeDirAll [nm "garlic", nm "wild"],
       .removeFile [nm "garlic", nm "wild.lock"]] :=
  (@purge_sole_handle Nat
      ⟨[[nm "garlic", nm "wild"], [nm "garlic"]], [],
       [[nm "garlic", nm "wild.lock"]],
       [([nm "garlic", nm "wild.lock"], 1)]⟩
      (nm "garlic") (nm "wild")
      ⟨[nm "garlic", nm "wild"], [nm "garlic", nm "wild.lock"]⟩
      rfl (by decide) (by decide) rfl (by decide)).2.1

/-- C5: `instance_peek_storage` reads the record without consulting or
taking the instance lease (its result is independent of the lease state),
and returns exactly the last completed store for the slug: `Some v` after
`store(v)`, `None` after `delete()`, and `None` when no store ever
happened. -/
theorem peek_storage_semantics {V : Type} {kind id slug : Name}
    (hk : checkSlug kind = .ok ()) (hi : checkSlug id = .ok ())
    (hs : checkSlug slug = .ok ()) (s : FsState V) (v : V) :
    (∀ H, instancePeekStorage { s with held := H } kind id slug =
       instancePeekStorage s kind id slug) ∧
    instancePeekStorage
        ((StorageHandle.mk [kind, id] (slug ++ '.' :: extJson)).store
            s v).2.1 kind id slug = .ok (some v) ∧
    instancePeekStorage
        ((StorageHandle.mk [kind, id] (slug ++ '.' :: extJson)).delete
            s).2.1 kind id slug = .ok none ∧
    (lookupFile s.files [kind, id, slug ++ '.' :: extJson] = none →
       instancePeekStorage s kind id slug = .ok none) := by
  have hwk : withInstancePathPieces kind id = .ok () :=
    (withInstancePathPieces_ok_iff kind id).mpr ⟨hk, hi⟩
  have hpeek : ∀ t : FsState V, instancePeekStorage t kind id slug =
      .ok (lookupFile t.files [kind, id, slug ++ '.' :: extJson]) := by
    intro t
    unfold instancePeekStorage
    rw [hwk, hs]
  refine ⟨?_, ?_, ?_, ?_⟩
  · intro H
    rw [hpeek, hpeek]
  · rw [hpeek]
    simp only [StorageHandle.store, lsStore, List.cons_append,
      List.nil_append]
    rw [lookupFile_setFile_self]
  · rw [hpeek]
    simp only [StorageHandle.delete, lsDelete, List.cons_append,
      List.nil_append]
    rw [lookupFile_removeEntry_self]
  · intro hnone
    rw [hpeek, hnone]

/-- Witness for C5: peeking `garlic/wild/stored_data` right after storing
`42` yields `some 42` without any lease being held. -/
theorem peek_storage_semantics_witness :
    instancePeekStorage
      ((StorageHandle.mk [nm "garlic", nm "wild"]
          (nm "stored_data.json")).store (FsState.empty Nat) 42).2.1
      (nm "garlic") (nm "wild") (nm "stored_data") = .ok (some 42) :=
  (@peek_storage_semantics Nat (nm "garlic") (nm "wild")
      (nm "stored_data")
      (by decide) (by decide) (by decide) (FsState.empty Nat) 42).2.1

/-! ## Lemmas about the purge scan -/

theorem purge_held_ne {V : Type} (s : FsState V) (hd : InstanceStateHandle)
    {p : Path} (hne : p ≠ hd.lockPath) :
    lookupFile (purge s hd).2.1.held p = lookupFile s.held p := by
  unfold purge
  cases hl : lookupFile s.held hd.lockPath with
  | none => rfl
  | some n =>
    rcases n with _ | _ | m
    · rfl
    · by_cases hmem : hd.dir ∈ s.dirs
      · rw [if_pos hmem]
        exact lookupFile_removeEntry_ne _ hne
      · rw [if_neg hmem]
    · rfl

theorem purgeScanStep_disposed {V : Type} {h : InstancePurgeHandler}
    {now : Nat} {kind : Name} {s s1 : FsState V} {inst : Name × Nat}
    {id : Name}
    (hstep : purgeScanStep h now kind s inst = (s1, some id)) :
    id = inst.1 ∧ h.nameFilter inst.1 = .possiblyUnused ∧
    ¬ (now - inst.2 < h.retainUnusedFor inst.1) ∧
    lookupFile s.held (instanceLockPath kind inst.1) = none := by
  unfold purgeScanStep at hstep
  cases hnf : h.nameFilter inst.1 with
  | live =>
    rw [hnf] at hstep
    exact absurd (congrArg Prod.snd hstep) (by simp)
  | possiblyUnused =>
    rw [hnf] at hstep
    dsimp only at hstep
    cases hl : lookupFile s.held (instanceLockPath kind inst.1) with
    | some n =>
      rw [hl] at hstep
      exact absurd (congrArg Prod.snd hstep) (by simp)
    | none =>
      rw [hl] at hstep
      by_cases hrec : now - inst.2 < h.retainUnusedFor inst.1
      · rw [if_pos hrec] at hstep
        exact absurd (congrArg Prod.snd hstep) (by simp)
      · rw [if_neg hrec] at hstep
        refine ⟨?_, rfl, hrec, rfl⟩
        by_cases hdp : h.disposeChoosesPurge inst.1 = true
        · rw [if_pos hdp] at hstep
          have h2 := congrArg Prod.snd hstep
          simpa using h2.symm
        · rw [if_neg hdp] at hstep
          have h2 := congrArg Prod.snd hstep
          simpa using h2.symm

theorem purgeScanStep_held_preserved {V : Type} (h : InstancePurgeHandler)
    (now : Nat) (kind : Name) (s : FsState V) (inst : Name × Nat)
    (p : Path) (hne : p ≠ instanceLockPath kind inst.1) :
    lookupFile (purgeScanStep h now kind s inst).1.held p =
      lookupFile s.held p := by
  unfold purgeScanStep
  cases hnf : h.nameFilter inst.1 with
  | live => rfl
  | possiblyUnused =>
    dsimp only
    cases hl : lookupFile s.held (instanceLockPath kind inst.1) with
    | some n => rfl
    | none =>
      dsimp only
      by_cases hrec : now - inst.2 < h.retainUnusedFor inst.1
      · rw [if_pos hrec]
        dsimp only
        rw [lookupFile_removeEntry_ne _ hne]
        exact lookupFile_cons_ne _ _ hne
      · rw [if_neg hrec]
        by_cases hdp : h.disposeChoosesPurge inst.1 = true
        · rw [if_pos hdp]
          rw [purge_held_ne _ _ hne]
          exact lookupFile_cons_ne _ _ hne
        · rw [if_neg hdp]
          dsimp only
          rw [lookupFile_removeEntry_ne _ hne]
          exact lookupFile_cons_ne _ _ hne

theorem purgeScan_disposed_inv {V : Type} (h : InstancePurgeHandler)
    (now : Nat) (kind : Name) (id : Name) :
    ∀ (instances : List (Name × Nat)) (s : FsState V),
      id ∈ (purgeScan h now kind s instances).2 →
      h.nameFilter id = .possiblyUnused ∧
      ∃ lm, (id, lm) ∈ instances ∧
        ¬ (now - lm < h.retainUnusedFor id) := by
  intro instances
  induction instances with
  | nil =>
    intro s hmem
    simp [purgeScan] at hmem
  | cons inst rest ih =>
    intro s hmem
    obtain ⟨iid, ilm⟩ := inst
    unfold purgeScan at hmem
    dsimp only at hmem
    rcases hstep : purgeScanStep h now kind s (iid, ilm) with ⟨s1, d⟩
    rw [hstep] at hmem
    cases d with
    | none =>
      obtain ⟨hnf, lm, hlm, hret⟩ := ih s1 hmem
      exact ⟨hnf, lm, List.mem_cons_of_mem _ hlm, hret⟩
    | some did =>
      dsimp only at hmem
      rcases List.mem_cons.mp hmem with h1 | h2
      · obtain ⟨hdid, hnf, hret, -⟩ := purgeScanStep_disposed hstep
        have hid : id = iid := by rw [h1, hdid]
        subst hid
        exact ⟨hnf, ilm, List.mem_cons_self _ _, hret⟩
      · obtain ⟨hnf, lm, hlm, hret⟩ := ih s1 h2
        exact ⟨hnf, lm, List.mem_cons_of_mem _ hlm, hret⟩

theorem purgeScan_held_skip {V : Type} (h : InstancePurgeHandler)
    (now : Nat) (kind : Name) (pid : Name) :
    ∀ (instances : List (Name × Nat)) (s : FsState V) (n : Nat),
      lookupFile s.held (instanceLockPath kind pid) = some n →
      pid ∉ (purgeScan h now kind s instances).2 := by
  intro instances
  induction instances with
  | nil =>
    intro s n hl
    simp [purgeScan]
  | cons inst rest ih =>
    intro s n hl
    obtain ⟨iid, ilm⟩ := inst
    unfold purgeScan
    dsimp only
    by_cases heq : iid = pid
    · subst heq
      have hstep : purgeScanStep h now kind s (iid, ilm) = (s, none) := by
        unfold purgeScanStep
        cases hnf : h.nameFilter iid with
        | live => rfl
        | possiblyUnused =>
          dsimp only
          rw [hl]
      rw [hstep]
      exact ih s n hl
    · have hpne : instanceLockPath kind pid ≠ instanceLockPath kind iid :=
        fun hc => heq (instanceLockPath_inj hc).symm
      have hpres := purgeScanStep_held_preserved h now kind s (iid, ilm) _ hpne
      rcases hstep : purgeScanStep h now kind s (iid, ilm) with ⟨s1, d⟩
      rw [hstep] at hpres
      have hl1 : lookupFile s1.held (instanceLockPath kind pid) = some n := by
        rw [show lookupFile s1.held (instanceLockPath kind pid) =
          lookupFile s.held (instanceLockPath kind pid) from hpres, hl]
      cases d with
      | none => exact ih s1 n hl1
      | some did =>
        dsimp only
        intro hmem
        rcases List.mem_cons.mp hmem with h1 | h2
        · have hdid : did = iid := (purgeScanStep_disposed hstep).1
          exact heq ((h1.trans hdid).symm)
        · exact ih s1 n hl1 h2

/-- C6: during `purge_instances`, an instance whose `name_filter` returns
Live is never passed to `dispose` (whatever its age); an instance modified
more recently than its `retain_unused_for` window is never passed to
`dispose` (everything disposed was possibly-unused and outside its
window); and an instance whose lock is currently held by another holder is
skipped without being reported as an error, the scan as a whole returning
success. -/
theorem purge_scan_protections {V : Type} (s : FsState V)
    (h : InstancePurgeHandler) (now : Nat) (kind : Name)
    (instances : List (Name × Nat)) (id : Name) (n : Nat) :
    (id ∈ (purgeScan h now kind s instances).2 →
       h.nameFilter id = .possiblyUnused ∧
       ∃ lm, (id, lm) ∈ instances ∧
         ¬ (now - lm < h.retainUnusedFor id)) ∧
    (lookupFile s.held (instanceLockPath kind id) = some n →
       id ∉ (purgeScan h now kind s instances).2) ∧
    (purgeInstances s h now kind instances).1 = .ok () :=
  ⟨purgeScan_disposed_inv h now kind id instances s,
   purgeScan_held_skip h now kind id instances s n, rfl⟩

/-- Witness for C6: with a policy treating every instance as possibly
unused with zero retention, the scan disposes an unlocked old instance
(whose guards therefore held), and skips an instance whose lock is held by
another holder. -/
theorem purge_scan_protections_witness :
    ((⟨fun _ => .possiblyUnused, fun _ => 0, fun _ => true⟩ :
        InstancePurgeHandler).nameFilter (nm "old") = .possiblyUnused ∧
      ∃ lm, (nm "old", lm) ∈ [(nm "old", 5)] ∧
        ¬ (100 - lm <
            (⟨fun _ => .possiblyUnused, fun _ => 0, fun _ => true⟩ :
              InstancePurgeHandler).retainUnusedFor (nm "old"))) ∧
    nm "wild" ∉
      (purgeScan
        (⟨fun _ => .possiblyUnused, fun _ => 0, fun _ => true⟩ :
          InstancePurgeHandler) 100 (nm "garlic")
        (⟨[], [], [[nm "garlic", nm "wild.lock"]],
          [([nm "garlic", nm "wild.lock"], 1)]⟩ : FsState Nat)
        [(nm "wild", 5)]).2 :=
  ⟨(purge_scan_protections (FsState.empty Nat)
      ⟨fun _ => .possiblyUnused, fun _ => 0, fun _ => true⟩ 100
      (nm "garlic") [(nm "old", 5)] (nm "old") 1).1 (by decide),
   (purge_scan_protections
      (⟨[], [], [[nm "garlic", nm "wild.lock"]],
        [([nm "garlic", nm "wild.lock"], 1)]⟩ : FsState Nat)
      ⟨fun _ => .possiblyUnused, fun _ => 0, fun _ => true⟩ 100
      (nm "garlic") [(nm "wild", 5)] (nm "wild") 1).2.1 (by decide)⟩

/-- C8: `acquire_instance` validates both the kind and the identity as
slugs before touching the filesystem or the lock: on any validation
failure it returns the classified BadSlug error with the state unchanged
and no filesystem operations performed — never truncating, escaping or
sanitizing the input — the empty kind being classified
EmptySlugNotAllowed; consequently it can never succeed on invalid
input. -/
theorem acquire_validates_slugs_first {V : Type} (s : FsState V)
    (kind id : Name) (e : Error)
    (hbad : withInstancePathPieces kind id = .error e) :
    acquireInstance s kind id = (.error e, s, []) ∧
    (∃ b, e = ⟨.badSlug b, .initializing⟩) ∧
    (kind = [] → e = ⟨.badSlug .emptySlugNotAllowed, .initializing⟩) ∧
    ∀ h' s' tr, acquireInstance s kind id ≠ (.ok h', s', tr) := by
  have h1 : acquireInstance s kind id = (.error e, s, []) := by
    unfold acquireInstance
    rw [hbad]
  refine ⟨h1, withInstancePathPieces_error hbad, ?_, ?_⟩
  · intro hk
    subst hk
    unfold withInstancePathPieces at hbad
    rw [if_pos rfl] at hbad
    injection hbad with h2
    exact h2.symm
  · intro h' s' tr hcontra
    rw [h1] at hcontra
    exact absurd (congrArg (fun t => t.1) hcontra) (by simp)

/-- Witness for C8: acquiring with identity `Wild` (bad leading character)
fails with the classified BadSlug error, leaving the empty state
untouched with no operations performed. -/
theorem acquire_validates_slugs_first_witness :
    acquireInstance (FsState.empty Nat) (nm "garlic") (nm "Wild") =
      (.error ⟨.badSlug (.badFirstCharacter 'W'), .initializing⟩,
       FsState.empty Nat, []) :=
  (acquire_validates_slugs_first (FsState.empty Nat) (nm "garlic")
      (nm "Wild") ⟨.badSlug (.badFirstCharacter 'W'), .initializing⟩
      rfl).1

/-! ## Lemmas about extension replacement, and C9/C10 -/

theorem containsChar_append (c : Char) (xs ys : Name) :
    containsChar c (xs ++ ys) =
      (containsChar c xs || containsChar c ys) := by
  induction xs with
  | nil => simp [containsChar]
  | cons d rest ih => by_cases h : d = c <;> simp [containsChar, h, ih]

theorem dropWhile_append_sat {p : Char → Bool} {xs : List Char}
    (ys : List Char) (h : ∀ x ∈ xs, p x = true) :
    (xs ++ ys).dropWhile p = ys.dropWhile p := by
  induction xs with
  | nil => rfl
  | cons x rest ih =>
    rw [List.cons_append, List.dropWhile_cons,
      if_pos (h x (List.mem_cons_self _ _)),
      ih (fun y hy => h y (List.mem_cons_of_mem _ hy))]

theorem stripAfterLastDot_append {cs ext1 : Name}
    (hext : containsChar '.' ext1 = false) :
    stripAfterLastDot (cs ++ '.' :: ext1) = cs := by
  unfold stripAfterLastDot
  rw [List.reverse_append, List.reverse_cons, List.append_assoc,
    dropWhile_append_sat _ ?hall]
  case hall =>
    intro x hx
    have hxe : x ∈ ext1 := List.mem_reverse.mp hx
    have := (containsChar_false_iff '.' ext1).mp hext x hxe
    simpa using this
  rw [List.singleton_append, List.dropWhile_cons]
  simp

theorem rustWithExtension_replaces {stem ext1 : Name} (ext2 : Name)
    (hstem : containsChar '.' stem = false) (hs : stem ≠ [])
    (hext : containsChar '.' ext1 = false) :
    rustWithExtension (stem ++ '.' :: ext1) ext2 = stem ++ '.' :: ext2 := by
  obtain ⟨c, cs, rfl⟩ : ∃ c cs, stem = c :: cs := by
    cases stem with
    | nil => exact absurd rfl hs
    | cons c cs => exact ⟨c, cs, rfl⟩
  have hcs : containsChar '.' cs = false := by
    rw [containsChar_false_iff] at hstem ⊢
    exact fun d hd => hstem d (List.mem_cons_of_mem _ hd)
  have hrest : containsChar '.' (cs ++ '.' :: ext1) = true := by
    rw [containsChar_append]
    simp [containsChar]
  show rustWithExtension (c :: (cs ++ '.' :: ext1)) ext2 = _
  simp only [rustWithExtension, rustFileStem, hrest, eq_self_iff_true,
    if_true]
  rw [stripAfterLastDot_append hext]

/-- C9 (counterexample): storing under slug `stored_data` in the
`garlic/wild` instance writes its temporary file at
`garlic/wild/stored_data.new` — per the implied filesystem structure
documented in the module (`SLUG.new`) — and not at
`garlic/wild/stored_data.json.tmp`; no operation in the trace touches a
`.json.tmp` path. -/
theorem store_tmp_name_counterexample :
    (lsStore (FsState.empty Nat) [nm "garlic", nm "wild"]
        (nm "stored_data.json") 42).2 =
      [.writeFile [nm "garlic", nm "wild", nm "stored_data.new"],
       .rename [nm "garlic", nm "wild", nm "stored_data.new"]
         [nm "garlic", nm "wild", nm "stored_data.json"]] ∧
    FsOp.writeFile [nm "garlic", nm "wild", nm "stored_data.json.tmp"] ∉
      (lsStore (FsState.empty Nat) [nm "garlic", nm "wild"]
        (nm "stored_data.json") 42).2 ∧
    nm "stored_data.new" ≠ nm "stored_data.json.tmp" := by
  refine ⟨by decide, by decide, by decide⟩

/-- C9 (amended): `store(v)` on the record `SLUG.json` first writes a
transient temporary file `SLUG.new` in the same instance directory and
then atomically renames it over the record path `SLUG.json`, in that
order; afterwards the record holds exactly `v` and the temporary file is
gone, so no reader ever observes a half-written record. -/
theorem store_via_tmp_and_rename {V : Type} {slug : Name}
    (hs : checkSlug slug = .ok ()) (dir : Path) (s : FsState V) (v : V) :
    (lsStore s dir (slug ++ '.' :: extJson) v).2 =
      [.writeFile (dir ++ [slug ++ '.' :: extNew]),
       .rename (dir ++ [slug ++ '.' :: extNew])
         (dir ++ [slug ++ '.' :: extJson])] ∧
    lookupFile (lsStore s dir (slug ++ '.' :: extJson) v).1.files
      (dir ++ [slug ++ '.' :: extJson]) = some v ∧
    lookupFile (lsStore s dir (slug ++ '.' :: extJson) v).1.files
      (dir ++ [slug ++ '.' :: extNew]) = none := by
  obtain ⟨hne, -⟩ := checkSlug_ok_first hs
  have hnd := checkSlug_ok_no_dot hs
  have hrw : rustWithExtension (slug ++ '.' :: extJson) extNew =
      slug ++ '.' :: extNew :=
    rustWithExtension_replaces extNew hnd hne (by decide)
  have hpne : dir ++ [slug ++ '.' :: extJson] ≠
      dir ++ [slug ++ '.' :: extNew] := by
    intro hc
    have h2 := List.append_cancel_left hc
    have h3 := List.append_cancel_left
      ((List.cons.injEq _ _ _ _).mp h2).1
    cases h3
  refine ⟨?_, ?_, ?_⟩
  · simp only [lsStore, hrw]
  · simp only [lsStore, hrw]
    rw [lookupFile_setFile_self]
  · simp only [lsStore, hrw]
    rw [lookupFile_setFile_ne _ _ (Ne.symm hpne),
      lookupFile_removeEntry_self]

/-- Witness for C9 (amended) at the concrete `stored_data` record. -/
theorem store_via_tmp_and_rename_witness :
    (lsStore (FsState.empty Nat) [nm "garlic", nm "wild"]
        (nm "stored_data" ++ '.' :: extJson) 42).2 =
      [.writeFile ([nm "garlic", nm "wild"] ++
         [nm "stored_data" ++ '.' :: extNew]),
       .rename ([nm "garlic", nm "wild"] ++
           [nm "stored_data" ++ '.' :: extNew])
         ([nm "garlic", nm "wild"] ++
           [nm "stored_data" ++ '.' :: extJson])] :=
  (@store_via_tmp_and_rename Nat (nm "stored_data")
      (by decide) [nm "garlic", nm "wild"] (FsState.empty Nat) 42).1

/-- C10: for every successfully acquired instance, the lock-file path that
`purge` deletes — the instance directory path with its extension replaced
by `lock` — is exactly the path `acquire_instance` locked,
`KIND/IDENTITY.lock`; this holds because a valid identity slug contains no
`.` character, so `with_extension` strips nothing from it. -/
theorem purge_lock_path_matches_acquire {V : Type} {s s' : FsState V}
    {kind id : Name} {h : InstanceStateHandle} {tr : List FsOp}
    (hacq : acquireInstance s kind id = (.ok h, s', tr)) :
    pathWithExtension h.dir extLock = h.lockPath ∧
    containsChar '.' id = false := by
  obtain ⟨hk, hi, hh, -⟩ := acquireInstance_ok hacq
  subst hh
  exact ⟨pathWithExtension_instance_dir hi, checkSlug_ok_no_dot hi⟩

/-- Witness for C10 at the concrete `garlic/wild` acquisition. -/
theorem purge_lock_path_matches_acquire_witness :
    pathWithExtension [nm "garlic", nm "wild"] (nm "lock") =
      [nm "garlic", nm "wild.lock"] :=
  (@purge_lock_path_matches_acquire Nat (FsState.empty Nat)
      ⟨[[nm "garlic", nm "wild"], [nm "garlic"]], [],
       [[nm "garlic", nm "wild.lock"]],
       [([nm "garlic", nm "wild.lock"], 1)]⟩
      (nm "garlic") (nm "wild")
      ⟨[nm "garlic", nm "wild"], [nm "garlic", nm "wild.lock"]⟩
      [.mkDir [nm "garlic"], .lockFile [nm "garlic", nm "wild.lock"],
       .mkDir [nm "garlic", nm "wild"]]
      rfl).1

end StateDir
